import Mathlib

/-!
Verification of the ralph-loop-agent repository.

Part 1 models the iterative, completion-verified outer agent loop
("Ralph loop") together with its streaming finalizer.  The repository
ships only the CLI/sandbox glue as source; the loop itself is described
by the specification (sections 3, 4, 6 and 7) and the package READMEs,
so the loop definitions below are modelled from the spec.

Part 2 embeds the CLI sandbox module (`examples/cli/lib/sandbox.ts`)
and the task-prompt resolution function, translated directly from the
TypeScript source.
-/

namespace Ralph

/-- Modelled from the spec: the loop implementation is not in the source
tree.  A `Verdict` is the evaluator's completion judgment,
`{complete: boolean, reason/feedback: optional text}` (spec section 3). -/
structure Verdict where
  complete : Bool
  feedback : Option String
deriving Repr, DecidableEq

/-- Modelled from the spec: the loop implementation is not in the source
tree.  `completionReason` is the single authoritative outcome signal,
one of `'verified' | 'max-iterations' | 'aborted'` (spec sections 6, 7). -/
inductive CompletionReason where
  | verified
  | maxIterations
  | aborted
deriving Repr, DecidableEq

/-- Modelled from the spec: the loop implementation is not in the source
tree.  An `IterationRecord` holds the 1-based iteration index, the inner
loop's generation result, and the verdict produced for it (absent if the
loop aborted before evaluation) (spec section 3). -/
structure IterationRecord where
  index : Nat
  result : String
  verdict : Option Verdict
deriving Repr, DecidableEq

/-- Modelled from the spec: the loop implementation is not in the source
tree.  The evaluator contract input
`{latestResult, iterationIndex, allIterationRecords, originalPrompt}`
(spec section 4.2). -/
structure EvalContext where
  latestResult : String
  iteration : Nat
  allResults : List IterationRecord
  originalPrompt : String

/-- Modelled from the spec: the loop implementation is not in the source
tree.  `LoopState` owns the original prompt, the append-only ordered
sequence of conversation turns, and the ordered iteration records
(spec section 3). -/
structure LoopState where
  originalPrompt : String
  history : List String
  records : List IterationRecord
deriving Repr, DecidableEq

/-- Modelled from the spec: the loop implementation is not in the source
tree.  One invocation of the inner step loop: the history it was given
and whether it ran in streaming mode (spec sections 4.4, 6). -/
structure InnerCall where
  input : List String
  streaming : Bool
deriving Repr, DecidableEq

/-- Modelled from the spec: the loop implementation is not in the source
tree.  The terminal result of `loop()`/`stream()`:
`{finalText, iterations, completionReason, reason?, allIterationResults}`
plus the attached error for `'aborted'` and the record of inner-loop
invocations (spec sections 6, 7). -/
structure LoopResult where
  text : String
  iterations : Nat
  completionReason : CompletionReason
  reason : Option String
  error : Option String
  allResults : List IterationRecord
  history : List String
  calls : List InnerCall
deriving Repr, DecidableEq

/-- Modelled from the spec: an evaluator produces a `Verdict` for an
iteration, and any exception it raises propagates as a loop-aborting
error (spec sections 4.2, 7), embedded here as `Except`. -/
def Evaluator : Type := EvalContext → Except String Verdict

/-- Modelled from the spec: the inner step loop is an external
collaborator executing one bounded generation round on the accumulated
message history (spec sections 2, 6). -/
def InnerLoop : Type := List String → String

/-- Modelled from the spec: loop start creates the `LoopState` with the
original prompt as first turn (spec section 4.1, `Idle → Running`). -/
def initState (prompt : String) : LoopState :=
  { originalPrompt := prompt, history := [prompt], records := [] }

/-- Modelled from the spec: when `complete=false`, `feedback` (if
present) is the text injected as a new turn before the next iteration
(spec section 3). -/
def feedbackTurns (v : Verdict) : List String :=
  match v.feedback with
  | some f => [f]
  | none => []

/-- Modelled from the spec: the `Evaluating → Running` transition.
Append the generation output and the feedback (if provided) as new
turns, and append the iteration record with its verdict
(spec section 4.1). -/
def nextState (st : LoopState) (gen : String) (v : Verdict) : LoopState :=
  { originalPrompt := st.originalPrompt
    history := st.history ++ [gen] ++ feedbackTurns v
    records := st.records ++ [⟨st.records.length + 1, gen, some v⟩] }

/-- Modelled from the spec: the `* → Aborted` terminal result, with the
triggering error attached and the verdict of the failed iteration absent
(spec sections 4.1, 7). -/
def abortedResult (st : LoopState) (gen : String) (idx : Nat)
    (recs : List IterationRecord) (e : String) : LoopResult :=
  { text := gen, iterations := idx, completionReason := .aborted
    reason := none, error := some e, allResults := recs
    history := st.history ++ [gen], calls := [⟨st.history, false⟩] }

/-- Modelled from the spec: a `Completed` or `MaxIterationsReached`
terminal result after a successfully evaluated iteration
(spec sections 4.1, 6). -/
def terminalResult (cr : CompletionReason) (st : LoopState) (gen : String)
    (idx : Nat) (v : Verdict) : LoopResult :=
  { text := gen, iterations := idx, completionReason := cr
    reason := v.feedback, error := none
    allResults := st.records ++ [⟨idx, gen, some v⟩]
    history := st.history ++ [gen], calls := [⟨st.history, false⟩] }

/-- Modelled from the spec: artificial result for fuel exhaustion in the
bounded recursion; unreachable for the fuel supplied by `loop`
(the loop can run at most `maxIterations` iterations). -/
def fuelOutResult (st : LoopState) : LoopResult :=
  { text := "", iterations := st.records.length, completionReason := .aborted
    reason := none, error := some "fuel exhausted", allResults := st.records
    history := st.history, calls := [] }

/-- Modelled from the spec: the outer Ralph loop body (spec section 4.1).
Each round invokes the inner loop on the accumulated history, evaluates
the result, then either completes (`verified`), stops (`max-iterations`,
when the default stop condition `iterationCountIs N` forbids iteration
`idx + 1`), aborts on an evaluator exception, or injects feedback and
recurses.  `fuel` bounds the recursion; `loop` supplies `N + 1`, which
always suffices because the loop only continues while `idx < N`. -/
def loopGo (inner : InnerLoop) (verify : Evaluator) (N : Nat) :
    Nat → LoopState → LoopResult
  | 0, st => fuelOutResult st
  | fuel + 1, st =>
    let idx := st.records.length + 1
    let gen := inner st.history
    let pending := st.records ++ [⟨idx, gen, none⟩]
    match verify ⟨gen, idx, pending, st.originalPrompt⟩ with
    | .error e => abortedResult st gen idx pending e
    | .ok v =>
      if v.complete then
        terminalResult .verified st gen idx v
      else if N ≤ idx then
        terminalResult .maxIterations st gen idx v
      else
        let r := loopGo inner verify N fuel (nextState st gen v)
        { r with calls := ⟨st.history, false⟩ :: r.calls }

/-- Modelled from the spec: `loop(input)` runs the outer Ralph loop from
the initial state whose first turn is the prompt, bounded by
`maxIterations = N` (spec sections 4.1, 6). -/
def loop (inner : InnerLoop) (verify : Evaluator) (N : Nat)
    (prompt : String) : LoopResult :=
  loopGo inner verify N (N + 1) (initState prompt)

/-- Unfolding lemma: the `* → Aborted` branch of the loop body. -/
theorem loopGo_error_eq (inner : InnerLoop) (verify : Evaluator) (N : Nat)
    (fuel : Nat) (st : LoopState) (e : String)
    (hv : verify ⟨inner st.history, st.records.length + 1,
        st.records ++ [⟨st.records.length + 1, inner st.history, none⟩],
        st.originalPrompt⟩ = .error e) :
    loopGo inner verify N (fuel + 1) st =
      abortedResult st (inner st.history) (st.records.length + 1)
        (st.records ++ [⟨st.records.length + 1, inner st.history, none⟩]) e := by
  rw [loopGo, hv]

/-- Unfolding lemma: the `Evaluating → Completed` branch of the loop body. -/
theorem loopGo_verified_eq (inner : InnerLoop) (verify : Evaluator) (N : Nat)
    (fuel : Nat) (st : LoopState) (v : Verdict)
    (hv : verify ⟨inner st.history, st.records.length + 1,
        st.records ++ [⟨st.records.length + 1, inner st.history, none⟩],
        st.originalPrompt⟩ = .ok v)
    (hc : v.complete = true) :
    loopGo inner verify N (fuel + 1) st =
      terminalResult .verified st (inner st.history) (st.records.length + 1) v := by
  rw [loopGo, hv]
  simp [hc]

/-- Unfolding lemma: the `Evaluating → MaxIterationsReached` branch. -/
theorem loopGo_maxiter_eq (inner : InnerLoop) (verify : Evaluator) (N : Nat)
    (fuel : Nat) (st : LoopState) (v : Verdict)
    (hv : verify ⟨inner st.history, st.records.length + 1,
        st.records ++ [⟨st.records.length + 1, inner st.history, none⟩],
        st.originalPrompt⟩ = .ok v)
    (hc : v.complete = false) (hstop : N ≤ st.records.length + 1) :
    loopGo inner verify N (fuel + 1) st =
      terminalResult .maxIterations st (inner st.history)
        (st.records.length + 1) v := by
  rw [loopGo, hv]
  simp [hc, hstop]

/-- Unfolding lemma: the `Evaluating → Running` (continue) branch. -/
theorem loopGo_continue_eq (inner : InnerLoop) (verify : Evaluator) (N : Nat)
    (fuel : Nat) (st : LoopState) (v : Verdict)
    (hv : verify ⟨inner st.history, st.records.length + 1,
        st.records ++ [⟨st.records.length + 1, inner st.history, none⟩],
        st.originalPrompt⟩ = .ok v)
    (hc : v.complete = false) (hstop : st.records.length + 1 < N) :
    loopGo inner verify N (fuel + 1) st =
      { loopGo inner verify N fuel (nextState st (inner st.history) v) with
          calls := ⟨st.history, false⟩ ::
            (loopGo inner verify N fuel (nextState st (inner st.history) v)).calls } := by
  rw [loopGo, hv]
  simp [hc, Nat.not_le.mpr hstop]

/-- The next state after a continue step has one more record. -/
theorem nextState_records_length (st : LoopState) (gen : String) (v : Verdict) :
    (nextState st gen v).records.length = st.records.length + 1 := by
  simp [nextState]

/-- Every inner-loop invocation recorded by `loopGo` is non-streaming. -/
theorem loopGo_calls_nonstreaming (inner : InnerLoop) (verify : Evaluator)
    (N : Nat) : ∀ fuel st, ∀ c ∈ (loopGo inner verify N fuel st).calls,
    c.streaming = false := by
  intro fuel
  induction fuel with
  | zero => intro st c hc; simp [loopGo, fuelOutResult] at hc
  | succ fuel ih =>
    intro st c hc
    rcases hv : verify ⟨inner st.history, st.records.length + 1,
        st.records ++ [⟨st.records.length + 1, inner st.history, none⟩],
        st.originalPrompt⟩ with e | v
    · rw [loopGo_error_eq inner verify N fuel st e hv] at hc
      simp [abortedResult] at hc
      simp [hc]
    · cases hcv : v.complete with
      | true =>
        rw [loopGo_verified_eq inner verify N fuel st v hv hcv] at hc
        simp [terminalResult] at hc
        simp [hc]
      | false =>
        rcases Nat.lt_or_ge (st.records.length + 1) N with hstop | hstop
        · rw [loopGo_continue_eq inner verify N fuel st v hv hcv hstop] at hc
          simp at hc
          rcases hc with hc | hc
          · simp [hc]
          · exact ih _ c hc
        · rw [loopGo_maxiter_eq inner verify N fuel st v hv hcv hstop] at hc
          simp [terminalResult] at hc
          simp [hc]

/-- If the evaluator reports incomplete on every iteration, `loopGo`
from a state with fewer than `N` recorded iterations runs the loop out
to exactly `N` iterations and stops with `max-iterations`. -/
theorem loopGo_always_incomplete (inner : InnerLoop) (verify : Evaluator)
    (N : Nat) (Hinc : ∀ c, ∃ fb, verify c = .ok ⟨false, fb⟩) :
    ∀ fuel st, st.records.length < N → st.records.length + fuel = N + 1 →
      (loopGo inner verify N fuel st).completionReason = .maxIterations ∧
      (loopGo inner verify N fuel st).iterations = N ∧
      (loopGo inner verify N fuel st).calls.length = N - st.records.length := by
  intro fuel
  induction fuel with
  | zero => intro st hlt hfuel; omega
  | succ fuel ih =>
    intro st hlt hfuel
    obtain ⟨fb, hfb⟩ := Hinc ⟨inner st.history, st.records.length + 1,
      st.records ++ [⟨st.records.length + 1, inner st.history, none⟩],
      st.originalPrompt⟩
    by_cases hstop : N ≤ st.records.length + 1
    · rw [loopGo_maxiter_eq inner verify N fuel st ⟨false, fb⟩ hfb rfl hstop]
      have hN : st.records.length + 1 = N := by omega
      simp [terminalResult, hN]
      omega
    · rw [loopGo_continue_eq inner verify N fuel st ⟨false, fb⟩ hfb rfl
        (Nat.not_le.mp hstop)]
      have hrec := ih (nextState st (inner st.history) ⟨false, fb⟩)
        (by rw [nextState_records_length]; omega)
        (by rw [nextState_records_length]; omega)
      rw [nextState_records_length] at hrec
      refine ⟨hrec.1, hrec.2.1, ?_⟩
      simp only [List.length_cons, hrec.2.2]
      omega

/-- C1: for every `maxIterations = N ≥ 1` and an evaluator reporting
incomplete on every iteration, `loop()` runs exactly `N` iterations
(exactly `N` inner-loop generation calls) and returns
`completionReason = 'max-iterations'`; in particular it runs at least
one iteration. -/
theorem loop_always_incomplete_runs_maxIterations (inner : InnerLoop)
    (verify : Evaluator) (N : Nat) (prompt : String) (hN : 1 ≤ N)
    (Hinc : ∀ c, ∃ fb, verify c = .ok ⟨false, fb⟩) :
    (loop inner verify N prompt).iterations = N ∧
    (loop inner verify N prompt).completionReason = .maxIterations ∧
    1 ≤ (loop inner verify N prompt).iterations ∧
    (loop inner verify N prompt).calls.length = N := by
  have h := loopGo_always_incomplete inner verify N Hinc (N + 1)
    (initState prompt) (by simp [initState]; omega) (by simp [initState])
  rw [loop]
  refine ⟨h.2.1, h.1, ?_, ?_⟩
  · rw [h.2.1]; exact hN
  · have := h.2.2
    simpa [initState] using this

/-- Fixed generation stub used in witnesses: the inner loop returns the
same text on any history. -/
def constInner : InnerLoop := fun _ => "gen"

/-- Evaluator stub used in witnesses: reports incomplete, no feedback,
on every iteration. -/
def alwaysIncomplete : Evaluator := fun _ => .ok ⟨false, none⟩

/-- C1 witness: `maxIterations = 1` with an always-incomplete evaluator
performs exactly one generation call and reports `'max-iterations'`. -/
theorem loop_always_incomplete_runs_maxIterations_witness :
    (1 ≤ 1) ∧
    (∀ c : EvalContext, ∃ fb, alwaysIncomplete c = .ok ⟨false, fb⟩) ∧
    ((loop constInner alwaysIncomplete 1 "task").iterations = 1 ∧
     (loop constInner alwaysIncomplete 1 "task").completionReason =
       .maxIterations ∧
     1 ≤ (loop constInner alwaysIncomplete 1 "task").iterations ∧
     (loop constInner alwaysIncomplete 1 "task").calls.length = 1) :=
  ⟨le_refl 1, fun _ => ⟨none, rfl⟩,
    loop_always_incomplete_runs_maxIterations constInner alwaysIncomplete
      1 "task" (le_refl 1) (fun _ => ⟨none, rfl⟩)⟩

/-- If the evaluator reports incomplete strictly below iteration `k` and
complete at iteration `k ≤ N`, `loopGo` from a state with fewer than `k`
records stops at iteration `k` with `verified`, having recorded exactly
`k` iterations and issued one inner call per remaining iteration. -/
theorem loopGo_completes_at (inner : InnerLoop) (verify : Evaluator)
    (N k : Nat) (hkN : k ≤ N)
    (Hlt : ∀ c, c.iteration < k → ∃ fb, verify c = .ok ⟨false, fb⟩)
    (Hk : ∀ c, c.iteration = k → ∃ r, verify c = .ok ⟨true, r⟩) :
    ∀ fuel st, st.records.length < k → st.records.length + fuel = N + 1 →
      (loopGo inner verify N fuel st).completionReason = .verified ∧
      (loopGo inner verify N fuel st).iterations = k ∧
      (loopGo inner verify N fuel st).allResults.length = k ∧
      (loopGo inner verify N fuel st).calls.length = k - st.records.length := by
  intro fuel
  induction fuel with
  | zero => intro st hlt hfuel; omega
  | succ fuel ih =>
    intro st hlt hfuel
    by_cases hk : st.records.length + 1 = k
    · obtain ⟨r, hr⟩ := Hk ⟨inner st.history, st.records.length + 1,
        st.records ++ [⟨st.records.length + 1, inner st.history, none⟩],
        st.originalPrompt⟩ hk
      rw [loopGo_verified_eq inner verify N fuel st ⟨true, r⟩ hr rfl]
      simp [terminalResult, hk]
      omega
    · obtain ⟨fb, hfb⟩ := Hlt ⟨inner st.history, st.records.length + 1,
        st.records ++ [⟨st.records.length + 1, inner st.history, none⟩],
        st.originalPrompt⟩ (by show st.records.length + 1 < k; omega)
      rw [loopGo_continue_eq inner verify N fuel st ⟨false, fb⟩ hfb rfl
        (by omega)]
      have hrec := ih (nextState st (inner st.history) ⟨false, fb⟩)
        (by rw [nextState_records_length]; omega)
        (by rw [nextState_records_length]; omega)
      rw [nextState_records_length] at hrec
      refine ⟨hrec.1, hrec.2.1, hrec.2.2.1, ?_⟩
      simp only [List.length_cons, hrec.2.2.2]
      omega

/-- C2: if the evaluator reports complete at iteration `k` with
`1 ≤ k ≤ N` (and incomplete before it), `loop()` terminates at
iteration `k` with `completionReason = 'verified'`; iteration `k + 1`
is never started: exactly `k` inner-loop invocations occur and
`allIterationResults` has length `k`. -/
theorem loop_complete_at_k_verified (inner : InnerLoop) (verify : Evaluator)
    (N k : Nat) (prompt : String) (hk1 : 1 ≤ k) (hkN : k ≤ N)
    (Hlt : ∀ c, c.iteration < k → ∃ fb, verify c = .ok ⟨false, fb⟩)
    (Hk : ∀ c, c.iteration = k → ∃ r, verify c = .ok ⟨true, r⟩) :
    (loop inner verify N prompt).completionReason = .verified ∧
    (loop inner verify N prompt).iterations = k ∧
    (loop inner verify N prompt).allResults.length = k ∧
    (loop inner verify N prompt).calls.length = k := by
  have h := loopGo_completes_at inner verify N k hkN Hlt Hk (N + 1)
    (initState prompt) (by simp [initState]; omega) (by simp [initState])
  rw [loop]
  refine ⟨h.1, h.2.1, h.2.2.1, ?_⟩
  have := h.2.2.2
  simpa [initState] using this

/-- Evaluator stub used in witnesses: complete exactly when the
iteration index equals `k`, with no feedback. -/
def completeAt (k : Nat) : Evaluator :=
  fun c => .ok ⟨c.iteration == k, none⟩

/-- C2 witness: with `maxIterations = 5` and an evaluator that completes
at iteration 2, the loop stops verified at iteration 2 with exactly two
inner calls and two iteration records. -/
theorem loop_complete_at_k_verified_witness :
    (1 ≤ 2) ∧ (2 ≤ 5) ∧
    (∀ c : EvalContext, c.iteration < 2 →
      ∃ fb, completeAt 2 c = .ok ⟨false, fb⟩) ∧
    (∀ c : EvalContext, c.iteration = 2 →
      ∃ r, completeAt 2 c = .ok ⟨true, r⟩) ∧
    ((loop constInner (completeAt 2) 5 "task").completionReason = .verified ∧
     (loop constInner (completeAt 2) 5 "task").iterations = 2 ∧
     (loop constInner (completeAt 2) 5 "task").allResults.length = 2 ∧
     (loop constInner (completeAt 2) 5 "task").calls.length = 2) :=
  ⟨by omega, by omega,
    fun c hc => ⟨none, by simp [completeAt]; omega⟩,
    fun c hc => ⟨none, by simp [completeAt, hc]⟩,
    loop_complete_at_k_verified constInner (completeAt 2) 5 2 "task"
      (by omega) (by omega)
      (fun c hc => ⟨none, by simp [completeAt]; omega⟩)
      (fun c hc => ⟨none, by simp [completeAt, hc]⟩)⟩

/-- If the evaluator reports incomplete strictly below iteration `k` and
raises an exception at iteration `k ≤ N`, `loopGo` aborts at iteration
`k` with the thrown error attached and no further inner call. -/
theorem loopGo_error_at (inner : InnerLoop) (verify : Evaluator)
    (N k : Nat) (e : String) (hkN : k ≤ N)
    (Hlt : ∀ c, c.iteration < k → ∃ fb, verify c = .ok ⟨false, fb⟩)
    (Hk : ∀ c, c.iteration = k → verify c = .error e) :
    ∀ fuel st, st.records.length < k → st.records.length + fuel = N + 1 →
      (loopGo inner verify N fuel st).completionReason = .aborted ∧
      (loopGo inner verify N fuel st).iterations = k ∧
      (loopGo inner verify N fuel st).error = some e ∧
      (loopGo inner verify N fuel st).calls.length = k - st.records.length := by
  intro fuel
  induction fuel with
  | zero => intro st hlt hfuel; omega
  | succ fuel ih =>
    intro st hlt hfuel
    by_cases hk : st.records.length + 1 = k
    · have hr := Hk ⟨inner st.history, st.records.length + 1,
        st.records ++ [⟨st.records.length + 1, inner st.history, none⟩],
        st.originalPrompt⟩ hk
      rw [loopGo_error_eq inner verify N fuel st e hr]
      simp [abortedResult, hk]
      omega
    · obtain ⟨fb, hfb⟩ := Hlt ⟨inner st.history, st.records.length + 1,
        st.records ++ [⟨st.records.length + 1, inner st.history, none⟩],
        st.originalPrompt⟩ (by show st.records.length + 1 < k; omega)
      rw [loopGo_continue_eq inner verify N fuel st ⟨false, fb⟩ hfb rfl
        (by omega)]
      have hrec := ih (nextState st (inner st.history) ⟨false, fb⟩)
        (by rw [nextState_records_length]; omega)
        (by rw [nextState_records_length]; omega)
      rw [nextState_records_length] at hrec
      refine ⟨hrec.1, hrec.2.1, hrec.2.2.1, ?_⟩
      simp only [List.length_cons, hrec.2.2.2]
      omega

/-- C3: if the evaluator call raises an exception at iteration `k`
(with `1 ≤ k ≤ N`, incomplete before it), `loop()` terminates
immediately with `completionReason = 'aborted'` and the thrown error
attached to the terminal result; the exception is never interpreted as
a negative verdict and no further iteration is started (exactly `k`
inner-loop invocations occur). -/
theorem loop_evaluator_error_aborts (inner : InnerLoop) (verify : Evaluator)
    (N k : Nat) (e : String) (prompt : String) (hk1 : 1 ≤ k) (hkN : k ≤ N)
    (Hlt : ∀ c, c.iteration < k → ∃ fb, verify c = .ok ⟨false, fb⟩)
    (Hk : ∀ c, c.iteration = k → verify c = .error e) :
    (loop inner verify N prompt).completionReason = .aborted ∧
    (loop inner verify N prompt).iterations = k ∧
    (loop inner verify N prompt).error = some e ∧
    (loop inner verify N prompt).calls.length = k := by
  have h := loopGo_error_at inner verify N k e hkN Hlt Hk (N + 1)
    (initState prompt) (by simp [initState]; omega) (by simp [initState])
  rw [loop]
  refine ⟨h.1, h.2.1, h.2.2.1, ?_⟩
  have := h.2.2.2
  simpa [initState] using this

/-- Evaluator stub used in witnesses: raises (`Except.error`) exactly at
iteration `k`, incomplete with no feedback before. -/
def errorAt (k : Nat) : Evaluator :=
  fun c => if c.iteration = k then .error "network failure"
           else .ok ⟨false, none⟩

/-- C3 witness: an evaluator that throws at iteration 2 of a 5-iteration
loop yields `'aborted'` at iteration 2 with the thrown error attached
and only two inner calls. -/
theorem loop_evaluator_error_aborts_witness :
    (1 ≤ 2) ∧ (2 ≤ 5) ∧
    (∀ c : EvalContext, c.iteration < 2 →
      ∃ fb, errorAt 2 c = .ok ⟨false, fb⟩) ∧
    (∀ c : EvalContext, c.iteration = 2 → errorAt 2 c = .error "network failure") ∧
    ((loop constInner (errorAt 2) 5 "task").completionReason = .aborted ∧
     (loop constInner (errorAt 2) 5 "task").iterations = 2 ∧
     (loop constInner (errorAt 2) 5 "task").error = some "network failure" ∧
     (loop constInner (errorAt 2) 5 "task").calls.length = 2) :=
  ⟨by omega, by omega,
    fun c hc => ⟨none, by simp [errorAt]; omega⟩,
    fun c hc => by simp [errorAt, hc],
    loop_evaluator_error_aborts constInner (errorAt 2) 5 2 "network failure"
      "task" (by omega) (by omega)
      (fun c hc => ⟨none, by simp [errorAt]; omega⟩)
      (fun c hc => by simp [errorAt, hc])⟩

/-- The first inner-loop invocation of a (non fuel-starved) `loopGo` run
receives exactly the current accumulated history. -/
theorem loopGo_calls_head (inner : InnerLoop) (verify : Evaluator)
    (N fuel : Nat) (st : LoopState) :
    (loopGo inner verify N (fuel + 1) st).calls.head? =
      some ⟨st.history, false⟩ := by
  rcases hv : verify ⟨inner st.history, st.records.length + 1,
      st.records ++ [⟨st.records.length + 1, inner st.history, none⟩],
      st.originalPrompt⟩ with e | v
  · rw [loopGo_error_eq inner verify N fuel st e hv]
    simp [abortedResult]
  · cases hcv : v.complete with
    | true =>
      rw [loopGo_verified_eq inner verify N fuel st v hv hcv]
      simp [terminalResult]
    | false =>
      rcases Nat.lt_or_ge (st.records.length + 1) N with hstop | hstop
      · rw [loopGo_continue_eq inner verify N fuel st v hv hcv hstop]
        simp
      · rw [loopGo_maxiter_eq inner verify N fuel st v hv hcv hstop]
        simp [terminalResult]

/-- C4: when iteration `k` (run on history `st.history`) receives a
negative verdict carrying feedback `f` and the stop condition allows a
next iteration, the loop continues; the history passed into iteration
`k + 1` is exactly the old history with the generation output and the
feedback appended as new turns, so the feedback is present in the
history of iteration `k + 1`, occupies a fresh position absent from the
history passed to iteration `k`, and the old history survives unchanged
as a prefix (append-only). -/
theorem loop_feedback_appended_next_iteration (inner : InnerLoop)
    (verify : Evaluator) (N fuel : Nat) (st : LoopState) (gen f : String)
    (hgen : gen = inner st.history)
    (hv : verify ⟨gen, st.records.length + 1,
        st.records ++ [⟨st.records.length + 1, gen, none⟩],
        st.originalPrompt⟩ = .ok ⟨false, some f⟩)
    (hstop : st.records.length + 1 < N) :
    loopGo inner verify N (fuel + 1) st =
      { loopGo inner verify N fuel (nextState st gen ⟨false, some f⟩) with
          calls := ⟨st.history, false⟩ ::
            (loopGo inner verify N fuel
              (nextState st gen ⟨false, some f⟩)).calls } ∧
    (nextState st gen ⟨false, some f⟩).history = st.history ++ [gen, f] ∧
    st.history <+: (nextState st gen ⟨false, some f⟩).history ∧
    (∀ fuel', (loopGo inner verify N (fuel' + 1)
        (nextState st gen ⟨false, some f⟩)).calls.head? =
      some ⟨st.history ++ [gen, f], false⟩) := by
  subst hgen
  refine ⟨loopGo_continue_eq inner verify N fuel st ⟨false, some f⟩ hv rfl
    hstop, ?_, ?_, ?_⟩
  · simp [nextState, feedbackTurns]
  · exact ⟨[inner st.history] ++ feedbackTurns ⟨false, some f⟩, by
      simp [nextState]⟩
  · intro fuel'
    rw [loopGo_calls_head]
    simp [nextState, feedbackTurns]

/-- Evaluator stub used in witnesses: always incomplete, always with the
same feedback text. -/
def feedbackAlways : Evaluator := fun _ => .ok ⟨false, some "fix it"⟩

/-- C4 witness: at iteration 1 of a 3-iteration run, feedback `"fix it"`
is appended after the generation turn, the old history is a prefix of
the new one, and iteration 2 is invoked on the extended history. -/
theorem loop_feedback_appended_next_iteration_witness :
    ("gen" = constInner (initState "task").history) ∧
    (feedbackAlways ⟨"gen", (initState "task").records.length + 1,
        (initState "task").records ++
          [⟨(initState "task").records.length + 1, "gen", none⟩],
        (initState "task").originalPrompt⟩ = .ok ⟨false, some "fix it"⟩) ∧
    ((initState "task").records.length + 1 < 3) ∧
    (loopGo constInner feedbackAlways 3 (2 + 1) (initState "task") =
      { loopGo constInner feedbackAlways 3 2
          (nextState (initState "task") "gen" ⟨false, some "fix it"⟩) with
          calls := ⟨(initState "task").history, false⟩ ::
            (loopGo constInner feedbackAlways 3 2
              (nextState (initState "task") "gen"
                ⟨false, some "fix it"⟩)).calls } ∧
     (nextState (initState "task") "gen" ⟨false, some "fix it"⟩).history =
       (initState "task").history ++ ["gen", "fix it"] ∧
     (initState "task").history <+:
       (nextState (initState "task") "gen" ⟨false, some "fix it"⟩).history ∧
     (∀ fuel', (loopGo constInner feedbackAlways 3 (fuel' + 1)
         (nextState (initState "task") "gen"
           ⟨false, some "fix it"⟩)).calls.head? =
       some ⟨(initState "task").history ++ ["gen", "fix it"], false⟩)) :=
  ⟨rfl, rfl, by simp [initState],
    loop_feedback_appended_next_iteration constInner feedbackAlways 3 2
      (initState "task") "gen" "fix it" rfl rfl (by simp [initState])⟩

/-- Modelled from the spec: the streaming finalizer (spec section 4.4).
`streamGo` reuses the outer-loop transition logic for every iteration
except the one that resolves termination (`Completed` or
`MaxIterationsReached`): those run in ordinary non-streaming mode.  The
terminating iteration is re-issued to the inner loop in streaming mode
(not reused from the non-streaming attempt) and the evaluator is run
against the fully drained text of that streamed iteration, so completion
bookkeeping stays consistent with `loop()`. -/
def streamGo (inner innerStream : InnerLoop) (verify : Evaluator) (N : Nat) :
    Nat → LoopState → LoopResult
  | 0, st => fuelOutResult st
  | fuel + 1, st =>
    let idx := st.records.length + 1
    let gen := inner st.history
    let pending := st.records ++ [⟨idx, gen, none⟩]
    match verify ⟨gen, idx, pending, st.originalPrompt⟩ with
    | .error e => abortedResult st gen idx pending e
    | .ok v =>
      if v.complete = true ∨ N ≤ idx then
        let sgen := innerStream st.history
        let spending := st.records ++ [⟨idx, sgen, none⟩]
        match verify ⟨sgen, idx, spending, st.originalPrompt⟩ with
        | .error e =>
          { abortedResult st sgen idx spending e with
              calls := [⟨st.history, false⟩, ⟨st.history, true⟩] }
        | .ok w =>
          { terminalResult
              (if w.complete then .verified else .maxIterations)
              st sgen idx w with
              calls := [⟨st.history, false⟩, ⟨st.history, true⟩] }
      else
        let r := streamGo inner innerStream verify N fuel (nextState st gen v)
        { r with calls := ⟨st.history, false⟩ :: r.calls }

/-- Modelled from the spec: `stream(input)` runs the streaming finalizer
from the initial state, with the same input shape and iteration bound as
`loop(input)` (spec sections 4.4, 6). -/
def stream (inner innerStream : InnerLoop) (verify : Evaluator) (N : Nat)
    (prompt : String) : LoopResult :=
  streamGo inner innerStream verify N (N + 1) (initState prompt)

/-- Unfolding lemma: the streaming finalizer on a terminating iteration
whose streamed re-issue evaluates successfully. -/
theorem streamGo_terminal_eq (inner innerStream : InnerLoop)
    (verify : Evaluator) (N fuel : Nat) (st : LoopState) (v w : Verdict)
    (hv : verify ⟨inner st.history, st.records.length + 1,
        st.records ++ [⟨st.records.length + 1, inner st.history, none⟩],
        st.originalPrompt⟩ = .ok v)
    (hcond : v.complete = true ∨ N ≤ st.records.length + 1)
    (hw : verify ⟨innerStream st.history, st.records.length + 1,
        st.records ++ [⟨st.records.length + 1, innerStream st.history, none⟩],
        st.originalPrompt⟩ = .ok w) :
    streamGo inner innerStream verify N (fuel + 1) st =
      { terminalResult (if w.complete then .verified else .maxIterations)
          st (innerStream st.history) (st.records.length + 1) w with
          calls := [⟨st.history, false⟩, ⟨st.history, true⟩] } := by
  rw [streamGo, hv]
  simp only [hcond, if_true, hw]

/-- Unfolding lemma: the streaming finalizer on a non-terminating
iteration behaves like the ordinary loop and recurses. -/
theorem streamGo_continue_eq (inner innerStream : InnerLoop)
    (verify : Evaluator) (N fuel : Nat) (st : LoopState) (v : Verdict)
    (hv : verify ⟨inner st.history, st.records.length + 1,
        st.records ++ [⟨st.records.length + 1, inner st.history, none⟩],
        st.originalPrompt⟩ = .ok v)
    (hc : v.complete = false) (hstop : st.records.length + 1 < N) :
    streamGo inner innerStream verify N (fuel + 1) st =
      { streamGo inner innerStream verify N fuel
          (nextState st (inner st.history) v) with
          calls := ⟨st.history, false⟩ ::
            (streamGo inner innerStream verify N fuel
              (nextState st (inner st.history) v)).calls } := by
  rw [streamGo, hv]
  simp [hc, Nat.not_le.mpr hstop]

/-- Under a deterministic streaming variant with identical semantics and
an evaluator that first completes at iteration `k ≤ N`, the streaming
finalizer agrees with the ordinary loop on every output component and
issues exactly one extra inner call: a streaming re-issue of the
terminating iteration's input. -/
theorem streamGo_agrees (inner innerStream : InnerLoop) (verify : Evaluator)
    (N k : Nat) (Hs : ∀ h, innerStream h = inner h) (hkN : k ≤ N)
    (Hlt : ∀ c, c.iteration < k → ∃ fb, verify c = .ok ⟨false, fb⟩)
    (Hk : ∀ c, c.iteration = k → ∃ r, verify c = .ok ⟨true, r⟩) :
    ∀ fuel st, st.records.length < k → st.records.length + fuel = N + 1 →
      ∃ c, (loopGo inner verify N fuel st).calls.getLast? = some c ∧
        c.streaming = false ∧
        (streamGo inner innerStream verify N fuel st).text =
          (loopGo inner verify N fuel st).text ∧
        (streamGo inner innerStream verify N fuel st).iterations =
          (loopGo inner verify N fuel st).iterations ∧
        (streamGo inner innerStream verify N fuel st).completionReason =
          (loopGo inner verify N fuel st).completionReason ∧
        (streamGo inner innerStream verify N fuel st).reason =
          (loopGo inner verify N fuel st).reason ∧
        (streamGo inner innerStream verify N fuel st).error =
          (loopGo inner verify N fuel st).error ∧
        (streamGo inner innerStream verify N fuel st).allResults =
          (loopGo inner verify N fuel st).allResults ∧
        (streamGo inner innerStream verify N fuel st).history =
          (loopGo inner verify N fuel st).history ∧
        (streamGo inner innerStream verify N fuel st).calls =
          (loopGo inner verify N fuel st).calls ++ [⟨c.input, true⟩] := by
  intro fuel
  induction fuel with
  | zero => intro st hlt hfuel; omega
  | succ fuel ih =>
    intro st hlt hfuel
    by_cases hk : st.records.length + 1 = k
    · obtain ⟨r, hr⟩ := Hk ⟨inner st.history, st.records.length + 1,
        st.records ++ [⟨st.records.length + 1, inner st.history, none⟩],
        st.originalPrompt⟩ hk
      have hr' : verify ⟨innerStream st.history, st.records.length + 1,
          st.records ++ [⟨st.records.length + 1, innerStream st.history,
            none⟩], st.originalPrompt⟩ = .ok ⟨true, r⟩ := by
        rw [Hs st.history]; exact hr
      rw [loopGo_verified_eq inner verify N fuel st ⟨true, r⟩ hr rfl,
        streamGo_terminal_eq inner innerStream verify N fuel st ⟨true, r⟩
          ⟨true, r⟩ hr (Or.inl rfl) hr']
      refine ⟨⟨st.history, false⟩, ?_⟩
      simp [terminalResult, Hs st.history]
    · obtain ⟨fb, hfb⟩ := Hlt ⟨inner st.history, st.records.length + 1,
        st.records ++ [⟨st.records.length + 1, inner st.history, none⟩],
        st.originalPrompt⟩ (by show st.records.length + 1 < k; omega)
      rw [loopGo_continue_eq inner verify N fuel st ⟨false, fb⟩ hfb rfl
          (by omega),
        streamGo_continue_eq inner innerStream verify N fuel st ⟨false, fb⟩
          hfb rfl (by omega)]
      obtain ⟨c, hlast, hcs, hrec⟩ := ih
        (nextState st (inner st.history) ⟨false, fb⟩)
        (by rw [nextState_records_length]; omega)
        (by rw [nextState_records_length]; omega)
      have hne : (loopGo inner verify N fuel
          (nextState st (inner st.history) ⟨false, fb⟩)).calls ≠ [] := by
        intro hnil
        rw [hnil] at hlast
        simp at hlast
      obtain ⟨y, ys, hys⟩ := List.exists_cons_of_ne_nil hne
      refine ⟨c, ?_, hcs, ?_, ?_, ?_, ?_, ?_, ?_, ?_, ?_⟩
      · rw [hys] at hlast ⊢
        rw [List.getLast?_cons_cons]
        exact hlast
      all_goals simp [hrec.2.2.2.2.2.2.1, hrec.2.2.2.2.2.2.2, hrec.1,
        hrec.2.1, hrec.2.2.1, hrec.2.2.2.1, hrec.2.2.2.2.1,
        hrec.2.2.2.2.2.1]

/-- C5: `stream()` and `loop()` agree on completion bookkeeping.  When
the evaluator first reports complete at iteration `k` within the bound
(`1 ≤ k ≤ N`) and the streaming inner-loop variant has the same
semantics as the non-streaming one, `stream()` runs iterations
`1 .. k-1` in non-streaming mode, re-issues iteration `k`'s input to the
inner loop in streaming mode (as an additional call, not reusing the
non-streaming attempt), and after draining reports the same
`completionReason` and `iterations` as `loop()` — `'verified'` at
iteration `k` — with `allIterationResults` of length `k`. -/
theorem stream_agrees_with_loop (inner innerStream : InnerLoop)
    (verify : Evaluator) (N k : Nat) (prompt : String)
    (Hs : ∀ h, innerStream h = inner h) (hk1 : 1 ≤ k) (hkN : k ≤ N)
    (Hlt : ∀ c, c.iteration < k → ∃ fb, verify c = .ok ⟨false, fb⟩)
    (Hk : ∀ c, c.iteration = k → ∃ r, verify c = .ok ⟨true, r⟩) :
    (stream inner innerStream verify N prompt).completionReason =
      (loop inner verify N prompt).completionReason ∧
    (stream inner innerStream verify N prompt).iterations =
      (loop inner verify N prompt).iterations ∧
    (stream inner innerStream verify N prompt).completionReason =
      .verified ∧
    (stream inner innerStream verify N prompt).iterations = k ∧
    (stream inner innerStream verify N prompt).allResults.length = k ∧
    (loop inner verify N prompt).calls.length = k ∧
    (∀ d ∈ (loop inner verify N prompt).calls, d.streaming = false) ∧
    (∃ c, (loop inner verify N prompt).calls.getLast? = some c ∧
      c.streaming = false ∧
      (stream inner innerStream verify N prompt).calls =
        (loop inner verify N prompt).calls ++ [⟨c.input, true⟩]) := by
  have hinit1 : (initState prompt).records.length < k := by
    simp [initState]; omega
  have hinit2 : (initState prompt).records.length + (N + 1) = N + 1 := by
    simp [initState]
  obtain ⟨c, hlast, hcs, ht, hit, hcr, hre, her, har, hh, hcalls⟩ :=
    streamGo_agrees inner innerStream verify N k Hs hkN Hlt Hk (N + 1)
      (initState prompt) hinit1 hinit2
  have hL := loopGo_completes_at inner verify N k hkN Hlt Hk (N + 1)
    (initState prompt) hinit1 hinit2
  rw [stream, loop]
  refine ⟨hcr, hit, ?_, ?_, ?_, ?_, ?_, ⟨c, hlast, hcs, hcalls⟩⟩
  · rw [hcr, hL.1]
  · rw [hit, hL.2.1]
  · rw [har, hL.2.2.1]
  · have := hL.2.2.2
    simpa [initState] using this
  · exact loopGo_calls_nonstreaming inner verify N (N + 1) (initState prompt)

/-- C5 witness: with `maxIterations = 5` and an evaluator completing at
iteration 2, `stream()` matches `loop()`'s bookkeeping (`verified`,
2 iterations, 2 records), the loop issues 2 non-streaming calls, and the
stream re-issues the second call's input once in streaming mode. -/
theorem stream_agrees_with_loop_witness :
    (∀ h, constInner h = constInner h) ∧ (1 ≤ 2) ∧ (2 ≤ 5) ∧
    (∀ c : EvalContext, c.iteration < 2 →
      ∃ fb, completeAt 2 c = .ok ⟨false, fb⟩) ∧
    (∀ c : EvalContext, c.iteration = 2 →
      ∃ r, completeAt 2 c = .ok ⟨true, r⟩) ∧
    ((stream constInner constInner (completeAt 2) 5 "task").completionReason =
      (loop constInner (completeAt 2) 5 "task").completionReason ∧
     (stream constInner constInner (completeAt 2) 5 "task").iterations =
      (loop constInner (completeAt 2) 5 "task").iterations ∧
     (stream constInner constInner (completeAt 2) 5 "task").completionReason =
      .verified ∧
     (stream constInner constInner (completeAt 2) 5 "task").iterations = 2 ∧
     (stream constInner constInner (completeAt 2) 5 "task").allResults.length = 2 ∧
     (loop constInner (completeAt 2) 5 "task").calls.length = 2 ∧
     (∀ d ∈ (loop constInner (completeAt 2) 5 "task").calls,
       d.streaming = false) ∧
     (∃ c, (loop constInner (completeAt 2) 5 "task").calls.getLast? = some c ∧
       c.streaming = false ∧
       (stream constInner constInner (completeAt 2) 5 "task").calls =
         (loop constInner (completeAt 2) 5 "task").calls ++
           [⟨c.input, true⟩])) :=
  ⟨fun _ => rfl, by omega, by omega,
    fun c hc => ⟨none, by simp [completeAt]; omega⟩,
    fun c hc => ⟨none, by simp [completeAt, hc]⟩,
    stream_agrees_with_loop constInner constInner (completeAt 2) 5 2 "task"
      (fun _ => rfl) (by omega) (by omega)
      (fun c hc => ⟨none, by simp [completeAt]; omega⟩)
      (fun c hc => ⟨none, by simp [completeAt, hc]⟩)⟩

/-- Modelled from the spec: the outer loop body where the external
collaborators (inner loop and evaluator) may carry hidden state of type
`σ`, threaded through every call.  Identical transition logic to
`loopGo`; used to express that `loop()` itself holds no hidden mutable
state across invocations (spec section 5). -/
def loopStGo {σ : Type} (inner : σ → List String → String × σ)
    (verify : σ → EvalContext → Except String Verdict × σ) (N : Nat) :
    Nat → LoopState → σ → LoopResult × σ
  | 0, st, s => (fuelOutResult st, s)
  | fuel + 1, st, s =>
    let idx := st.records.length + 1
    let g := inner s st.history
    let pending := st.records ++ [⟨idx, g.1, none⟩]
    let e := verify g.2 ⟨g.1, idx, pending, st.originalPrompt⟩
    match e.1 with
    | .error err => (abortedResult st g.1 idx pending err, e.2)
    | .ok v =>
      if v.complete then
        (terminalResult .verified st g.1 idx v, e.2)
      else if N ≤ idx then
        (terminalResult .maxIterations st g.1 idx v, e.2)
      else
        let r := loopStGo inner verify N fuel (nextState st g.1 v) e.2
        ({ r.1 with calls := ⟨st.history, false⟩ :: r.1.calls }, r.2)

/-- Modelled from the spec: `loop(input)` with stateful collaborators,
started from a collaborator state `s` (spec sections 5, 6). -/
def loopSt {σ : Type} (inner : σ → List String → String × σ)
    (verify : σ → EvalContext → Except String Verdict × σ) (N : Nat)
    (prompt : String) (s : σ) : LoopResult × σ :=
  loopStGo inner verify N (N + 1) (initState prompt) s

/-- When the stateful collaborators are deterministic — their outputs do
not depend on the hidden state — the stateful loop computes exactly the
pure loop's result, whatever the initial hidden state. -/
theorem loopStGo_pure {σ : Type} (inner : σ → List String → String × σ)
    (verify : σ → EvalContext → Except String Verdict × σ)
    (innerP : InnerLoop) (verifyP : Evaluator) (N : Nat)
    (Hi : ∀ s h, (inner s h).1 = innerP h)
    (Hv : ∀ s c, (verify s c).1 = verifyP c) :
    ∀ fuel st s, (loopStGo inner verify N fuel st s).1 =
      loopGo innerP verifyP N fuel st := by
  intro fuel
  induction fuel with
  | zero => intro st s; rw [loopStGo, loopGo]
  | succ fuel ih =>
    intro st s
    rw [loopStGo, loopGo]
    rw [Hi s st.history, Hv (inner s st.history).2]
    rcases hv : verifyP ⟨innerP st.history, st.records.length + 1,
        st.records ++ [⟨st.records.length + 1, innerP st.history, none⟩],
        st.originalPrompt⟩ with err | v
    · rw [hv]
    · rw [hv]
      by_cases hc : v.complete
      · simp [hc]
      · by_cases hstop : N ≤ st.records.length + 1
        · simp [hc, hstop]
        · simp only [hc, Bool.false_eq_true, if_false, if_neg hstop]
          simp only [ih]

/-- C7: `loop()` is deterministic and idempotent.  Against a
deterministic evaluator and a deterministic inner-loop stub (outputs
independent of any hidden collaborator state), calling the loop twice
with identical input — the second call starting from whatever
collaborator state the first call left behind — yields identical
`iterations` and identical `completionReason` (indeed identical
results). -/
theorem loop_deterministic_idempotent {σ : Type}
    (inner : σ → List String → String × σ)
    (verify : σ → EvalContext → Except String Verdict × σ)
    (innerP : InnerLoop) (verifyP : Evaluator) (N : Nat) (prompt : String)
    (s0 : σ)
    (Hi : ∀ s h, (inner s h).1 = innerP h)
    (Hv : ∀ s c, (verify s c).1 = verifyP c) :
    (loopSt inner verify N prompt s0).1.iterations =
      (loopSt inner verify N prompt
        (loopSt inner verify N prompt s0).2).1.iterations ∧
    (loopSt inner verify N prompt s0).1.completionReason =
      (loopSt inner verify N prompt
        (loopSt inner verify N prompt s0).2).1.completionReason ∧
    (loopSt inner verify N prompt s0).1 =
      (loopSt inner verify N prompt
        (loopSt inner verify N prompt s0).2).1 := by
  have h1 := loopStGo_pure inner verify innerP verifyP N Hi Hv (N + 1)
    (initState prompt) s0
  have h2 := loopStGo_pure inner verify innerP verifyP N Hi Hv (N + 1)
    (initState prompt)
    (loopStGo inner verify N (N + 1) (initState prompt) s0).2
  simp only [loopSt]
  rw [h1, h2]
  exact ⟨rfl, rfl, rfl⟩

/-- Stateful inner-loop stub for the C7 witness: returns fixed text but
mutates a hidden counter. -/
def countingInner : Nat → List String → String × Nat :=
  fun s _ => ("gen", s + 1)

/-- Stateful evaluator stub for the C7 witness: always incomplete,
mutating the hidden counter. -/
def countingVerify : Nat → EvalContext → Except String Verdict × Nat :=
  fun s _ => (.ok ⟨false, none⟩, s + 7)

/-- C7 witness: two successive `loop()` invocations with identical input
over deterministic (state-ignoring) stubs — even though the hidden
counter advanced between calls — produce identical iterations and
completion reason. -/
theorem loop_deterministic_idempotent_witness :
    (∀ (s : Nat) (h : List String), (countingInner s h).1 = constInner h) ∧
    (∀ (s : Nat) (c : EvalContext),
      (countingVerify s c).1 = alwaysIncomplete c) ∧
    ((loopSt countingInner countingVerify 3 "task" 0).1.iterations =
      (loopSt countingInner countingVerify 3 "task"
        (loopSt countingInner countingVerify 3 "task" 0).2).1.iterations ∧
     (loopSt countingInner countingVerify 3 "task" 0).1.completionReason =
      (loopSt countingInner countingVerify 3 "task"
        (loopSt countingInner countingVerify 3 "task" 0).2).1.completionReason ∧
     (loopSt countingInner countingVerify 3 "task" 0).1 =
      (loopSt countingInner countingVerify 3 "task"
        (loopSt countingInner countingVerify 3 "task" 0).2).1) :=
  ⟨fun _ _ => rfl, fun _ _ => rfl,
    loop_deterministic_idempotent countingInner countingVerify constInner
      alwaysIncomplete 3 "task" 0 (fun _ _ => rfl) (fun _ _ => rfl)⟩

end Ralph

namespace Cli

/-- An external sandbox handle, as returned by the provider's
`Sandbox.create` in `examples/cli/lib/sandbox.ts`; identified here by an
opaque numeric id. -/
structure Sandbox where
  sandboxId : Nat
deriving Repr, DecidableEq

/-- The module-level mutable state of `sandbox.ts`:
`let sandbox: Sandbox | null = null` and
`let sandboxDomain: string | null = null` (lines 12–14). -/
structure ModuleState where
  sandbox : Option Sandbox
  sandboxDomain : Option String
deriving Repr, DecidableEq

/-- The state of the module at load time: no sandbox, no domain. -/
def initialModuleState : ModuleState := ⟨none, none⟩

/-- `getSandbox()` from `sandbox.ts`: reads the module-level variable. -/
def getSandbox (st : ModuleState) : Option Sandbox := st.sandbox

/-- `getSandboxDomain()` from `sandbox.ts`: reads the module-level
variable. -/
def getSandboxDomain (st : ModuleState) : Option String := st.sandboxDomain

/-- The module-state effect of `initializeSandbox(localDir)` from
`sandbox.ts`: the externally created handle (`Sandbox.create`, modelled
by the `created` argument) is assigned to the module-level `sandbox`
variable and `sandbox.domain(3000)` (modelled by the `domain` argument)
to `sandboxDomain`.  The subsequent file copy and dev-tool installation
are external effects that do not touch the module state. -/
def initializeSandbox (domain : Sandbox → Nat → String) (created : Sandbox)
    (st : ModuleState) : ModuleState :=
  { st with sandbox := some created
            sandboxDomain := some (domain created 3000) }

/-- Result of a sandbox command, `{stdout, stderr, exitCode}` from
`runInSandbox` in `sandbox.ts`. -/
structure CmdResult where
  stdout : String
  stderr : String
  exitCode : Int
deriving Repr, DecidableEq

/-- `runInSandbox(command)` from `sandbox.ts`: throws
`'Sandbox not initialized'` when the module-level `sandbox` is null,
otherwise runs the command in the sandbox (the external execution is
modelled by `execC`). -/
def runInSandbox (execC : Sandbox → String → CmdResult) (st : ModuleState)
    (command : String) : Except String CmdResult :=
  match st.sandbox with
  | none => .error "Sandbox not initialized"
  | some sb => .ok (execC sb command)

/-- `readFromSandbox(filePath)` from `sandbox.ts`: throws
`'Sandbox not initialized'` when no sandbox exists; otherwise returns
the file's text, or null when the provider returns no stream (external
read modelled by `readF`). -/
def readFromSandbox (readF : Sandbox → String → Option String)
    (st : ModuleState) (filePath : String) : Except String (Option String) :=
  match st.sandbox with
  | none => .error "Sandbox not initialized"
  | some sb => .ok (readF sb filePath)

/-- `writeToSandbox(filePath, content)` from `sandbox.ts`: throws
`'Sandbox not initialized'` when no sandbox exists; otherwise writes the
file (external write modelled by `writeF`). -/
def writeToSandbox (writeF : Sandbox → String → String → Unit)
    (st : ModuleState) (filePath content : String) : Except String Unit :=
  match st.sandbox with
  | none => .error "Sandbox not initialized"
  | some sb => .ok (writeF sb filePath content)

/-- `closeSandbox(localDir)` from `sandbox.ts`: when a sandbox exists,
tries to copy files back (`copySandboxToLocal`, modelled by `copyBack`)
and close the handle (modelled by `closeH`); any error from either is
caught and ignored, and the module-level `sandbox` and `sandboxDomain`
are set to null afterwards in every case.  When no sandbox exists the
call does nothing. -/
def closeSandbox (copyBack : Sandbox → Except String Unit)
    (closeH : Sandbox → Except String Unit) (st : ModuleState) :
    Except String ModuleState :=
  match st.sandbox with
  | none => .ok st
  | some sb =>
    match copyBack sb with
    | .error _ => .ok { sandbox := none, sandboxDomain := none }
    | .ok _ =>
      match closeH sb with
      | .error _ => .ok { sandbox := none, sandboxDomain := none }
      | .ok _ => .ok { sandbox := none, sandboxDomain := none }

/-- C6 counterexample: the sandbox handle is NOT an isolated,
explicitly-threaded session object.  `initializeSandbox` writes the one
module-level slot, so after invocation A initializes (observing handle
1), an independent invocation B's initialization changes what A's
subsequent `getSandbox()` observes: the two invocations share mutable
state, refuting the claim at this concrete input. -/
theorem sandbox_singleton_shared_counterexample :
    getSandbox (initializeSandbox (fun _ _ => "") ⟨2⟩
      (initializeSandbox (fun _ _ => "") ⟨1⟩ initialModuleState)) =
        some ⟨2⟩ ∧
    getSandbox (initializeSandbox (fun _ _ => "") ⟨1⟩ initialModuleState) =
      some ⟨1⟩ ∧
    getSandbox (initializeSandbox (fun _ _ => "") ⟨2⟩
      (initializeSandbox (fun _ _ => "") ⟨1⟩ initialModuleState)) ≠
    getSandbox (initializeSandbox (fun _ _ => "") ⟨1⟩ initialModuleState) :=
  ⟨rfl, rfl, by decide⟩

/-- C6 (amended): the sandbox handle is process-wide module state, not
an explicitly threaded session object: `initializeSandbox` overwrites
the single module-level `sandbox`/`sandboxDomain` slots regardless of
the previous state (its result is independent of the prior state), and
`getSandbox`/`getSandboxDomain` read those shared slots, so a later
initialization replaces the handle observed by every caller. -/
theorem initializeSandbox_overwrites_module_state
    (domain : Sandbox → Nat → String) (created : Sandbox)
    (st st' : ModuleState) :
    getSandbox (initializeSandbox domain created st) = some created ∧
    getSandboxDomain (initializeSandbox domain created st) =
      some (domain created 3000) ∧
    initializeSandbox domain created st =
      initializeSandbox domain created st' :=
  ⟨rfl, rfl, rfl⟩

/-- C9: `closeSandbox` never throws and always clears the module state:
whatever the copy-back and close effects do (including raising errors,
which are swallowed), it returns normally; when a sandbox existed, the
resulting state yields `getSandbox = null` and `getSandboxDomain = null`
and every subsequent `runInSandbox`/`readFromSandbox`/`writeToSandbox`
throws `'Sandbox not initialized'`; when no sandbox existed the call is
a no-op. -/
theorem closeSandbox_clears_state_never_throws
    (copyBack closeH : Sandbox → Except String Unit) (st : ModuleState) :
    (∃ st', closeSandbox copyBack closeH st = .ok st') ∧
    (∀ st', closeSandbox copyBack closeH st = .ok st' →
      (st.sandbox.isSome = true →
        getSandbox st' = none ∧ getSandboxDomain st' = none ∧
        (∀ execC c, runInSandbox execC st' c =
          .error "Sandbox not initialized") ∧
        (∀ readF p, readFromSandbox readF st' p =
          .error "Sandbox not initialized") ∧
        (∀ writeF p c, writeToSandbox writeF st' p c =
          .error "Sandbox not initialized")) ∧
      (st.sandbox = none → st' = st)) := by
  obtain ⟨osb, odom⟩ := st
  rcases osb with _ | sb
  · refine ⟨⟨⟨none, odom⟩, rfl⟩, ?_⟩
    intro st' hst'
    injection hst' with h
    subst h
    exact ⟨fun hsome => by simp at hsome, fun _ => rfl⟩
  · have hclosed : closeSandbox copyBack closeH ⟨some sb, odom⟩ =
        .ok { sandbox := none, sandboxDomain := none } := by
      simp only [closeSandbox]
      cases hcb : copyBack sb with
      | error e => rfl
      | ok u =>
        cases hch : closeH sb with
        | error e => rfl
        | ok u2 => rfl
    refine ⟨⟨_, hclosed⟩, ?_⟩
    intro st' hst'
    rw [hclosed] at hst'
    injection hst' with h
    subst h
    exact ⟨fun _ => ⟨rfl, rfl, fun _ _ => rfl, fun _ _ => rfl,
      fun _ _ _ => rfl⟩, fun hnone => by simp at hnone⟩

/-- C9 witness: closing a module state that holds sandbox 7, where both
the copy-back and the close effect raise errors, returns normally with
cleared state, after which `getSandbox` is null and `runInSandbox`,
`readFromSandbox` and `writeToSandbox` all throw. -/
theorem closeSandbox_clears_state_never_throws_witness :
    ((∃ st', closeSandbox (fun _ => .error "copy failed")
        (fun _ => .error "close failed") ⟨some ⟨7⟩, some "d"⟩ = .ok st') ∧
     (∀ st', closeSandbox (fun _ => .error "copy failed")
        (fun _ => .error "close failed") ⟨some ⟨7⟩, some "d"⟩ = .ok st' →
      ((⟨some ⟨7⟩, some "d"⟩ : ModuleState).sandbox.isSome = true →
        getSandbox st' = none ∧ getSandboxDomain st' = none ∧
        (∀ execC c, runInSandbox execC st' c =
          .error "Sandbox not initialized") ∧
        (∀ readF p, readFromSandbox readF st' p =
          .error "Sandbox not initialized") ∧
        (∀ writeF p c, writeToSandbox writeF st' p c =
          .error "Sandbox not initialized")) ∧
      ((⟨some ⟨7⟩, some "d"⟩ : ModuleState).sandbox = none →
        st' = ⟨some ⟨7⟩, some "d"⟩))) :=
  closeSandbox_clears_state_never_throws (fun _ => .error "copy failed")
    (fun _ => .error "close failed") ⟨some ⟨7⟩, some "d"⟩

/-- JavaScript `name.startsWith(pre)`, computed on the underlying
character lists. -/
def strStartsWith (s pre : String) : Bool := List.isPrefixOf pre.data s.data

/-- JavaScript `s.endsWith(suf)`, computed on the underlying character
lists. -/
def strEndsWith (s suf : String) : Bool := List.isSuffixOf suf.data s.data

/-- `path.join`-style concatenation used for sandbox paths in
`collectFiles` (`prefix ? prefix + '/' + entry.name : entry.name`). -/
def joinPath (pre name : String) : String :=
  if pre = "" then name else pre ++ "/" ++ name

/-- A local file-system entry as seen by `collectFiles` in `sandbox.ts`:
a file with its content size and whether `fs.readFile` succeeds, or a
directory with children. -/
inductive FSEntry where
  | file (name : String) (size : Nat) (readable : Bool)
  | dir (name : String) (children : List FSEntry)
deriving Repr

/-- `shouldAlwaysSkip(name, isDirectory)` from `copyLocalToSandbox` in
`sandbox.ts` (lines 330–345): `.env` and `.env.*` files, `.DS_Store`,
and `node_modules` directories are never copied, regardless of
gitignore. -/
def shouldAlwaysSkip (name : String) (isDirectory : Bool) : Bool :=
  if name == ".env" || strStartsWith name ".env." then true
  else if name == ".DS_Store" then true
  else if isDirectory && name == "node_modules" then true
  else false

/-- `collectFiles(dir, prefix)` from `copyLocalToSandbox` in
`sandbox.ts` (lines 347–386): walks the tree, skipping entries matched
by `shouldAlwaysSkip`, entries ignored by the loaded gitignore rules
(`ig.ignores`, modelled by the predicate `ig`, with a trailing slash for
directories), unreadable files, and files of 1 MiB (1048576 bytes) or
more; collects the (sandbox path, size) of every remaining file. -/
def collectFiles (ig : String → Bool) (pre : String) :
    List FSEntry → List (String × Nat)
  | [] => []
  | .file name size readable :: rest =>
    (if shouldAlwaysSkip name false then []
     else if ig (joinPath pre name) then []
     else if readable then
       if size < 1048576 then [(joinPath pre name, size)] else []
     else [])
    ++ collectFiles ig pre rest
  | .dir name children :: rest =>
    (if shouldAlwaysSkip name true then []
     else if ig (joinPath pre name ++ "/") then []
     else collectFiles ig (joinPath pre name) children)
    ++ collectFiles ig pre rest

/-- A file name that `shouldAlwaysSkip` lets through is not `.env`, not
an `.env.*` file, and not `.DS_Store`. -/
theorem shouldAlwaysSkip_file_eq_false (name : String)
    (h : shouldAlwaysSkip name false = false) :
    name ≠ ".env" ∧ strStartsWith name ".env." = false ∧
    name ≠ ".DS_Store" := by
  simp only [shouldAlwaysSkip] at h
  by_cases h1 : name == ".env" || strStartsWith name ".env."
  · rw [if_pos h1] at h
    exact absurd h (by simp)
  · rw [if_neg h1] at h
    simp only [Bool.or_eq_true, beq_iff_eq, not_or] at h1
    by_cases h2 : name == ".DS_Store"
    · rw [if_pos h2] at h
      exact absurd h (by simp)
    · refine ⟨h1.1, ?_, by simpa using h2⟩
      rcases hs : strStartsWith name ".env." with _ | _
      · rfl
      · exact absurd hs h1.2

/-- A directory name that `shouldAlwaysSkip` lets through is not
`node_modules`. -/
theorem shouldAlwaysSkip_dir_eq_false (name : String)
    (h : shouldAlwaysSkip name true = false) : name ≠ "node_modules" := by
  intro hn
  subst hn
  simp [shouldAlwaysSkip, strStartsWith, List.isPrefixOf] at h

/-- Shape of every entry collected by `collectFiles`: its sandbox path
is the prefix joined with a chain of directory names (none skippable,
in particular none `node_modules`) and a non-skippable file name; the
path is not gitignored; the size is strictly below 1 MiB. -/
theorem collectFiles_mem_shape (ig : String → Bool) :
    ∀ pre l, ∀ p sz, (p, sz) ∈ collectFiles ig pre l →
      ∃ dirs name, p = List.foldl joinPath pre (dirs ++ [name]) ∧
        shouldAlwaysSkip name false = false ∧
        (∀ d ∈ dirs, shouldAlwaysSkip d true = false) ∧
        ig p = false ∧ sz < 1048576 := by
  intro pre l
  induction pre, l using collectFiles.induct ig with
  | case1 pre => intro p sz h; simp [collectFiles] at h
  | case2 pre name size readable rest ih =>
    intro p sz h
    rw [collectFiles] at h
    rcases List.mem_append.1 h with h1 | h2
    · split at h1
      · exact absurd h1 (List.not_mem_nil _)
      · split at h1
        · exact absurd h1 (List.not_mem_nil _)
        · split at h1
          · split at h1
            · rename_i hskip hig hread hsize
              rw [List.mem_singleton] at h1
              obtain ⟨hp, hsz⟩ := Prod.mk.injEq .. ▸ h1
              refine ⟨[], name, by simpa using hp, ?_, by simp, ?_, ?_⟩
              · exact Bool.not_eq_true _ ▸ hskip
              · rw [hp]
                exact Bool.not_eq_true _ ▸ hig
              · omega
            · exact absurd h1 (List.not_mem_nil _)
          · exact absurd h1 (List.not_mem_nil _)
    · exact ih p sz h2
  | case3 pre name children rest ih1 ih2 =>
    intro p sz h
    rw [collectFiles] at h
    rcases List.mem_append.1 h with h1 | h2
    · split at h1
      · exact absurd h1 (List.not_mem_nil _)
      · split at h1
        · exact absurd h1 (List.not_mem_nil _)
        · rename_i hskip hig
          obtain ⟨dirs, nm, hp, hnm, hdirs, higp, hsz⟩ := ih1 p sz h1
          refine ⟨name :: dirs, nm, ?_, hnm, ?_, higp, hsz⟩
          · simpa using hp
          · intro d hd
            rcases List.mem_cons.1 hd with hd | hd
            · subst hd
              exact Bool.not_eq_true _ ▸ hskip
            · exact hdirs d hd
    · exact ih2 p sz h2

/-- C8: `copyLocalToSandbox` never transfers a secret or oversized file.
A file is included in the set written to the sandbox only if its name is
not `.env` and does not start with `.env.`, its name is not
`.DS_Store`, it is not inside a `node_modules` directory, it does not
match the loaded gitignore rules, and its content is strictly smaller
than 1 MiB = 1048576 bytes (a file of exactly 1 MiB is skipped). -/
theorem collectFiles_skips_secrets_and_oversized (ig : String → Bool)
    (entries : List FSEntry) (p : String) (sz : Nat)
    (hmem : (p, sz) ∈ collectFiles ig "" entries) :
    ∃ dirs name, p = List.foldl joinPath "" (dirs ++ [name]) ∧
      name ≠ ".env" ∧ strStartsWith name ".env." = false ∧
      name ≠ ".DS_Store" ∧ (∀ d ∈ dirs, d ≠ "node_modules") ∧
      ig p = false ∧ sz < 1048576 := by
  obtain ⟨dirs, name, hp, hname, hdirs, hig, hsz⟩ :=
    collectFiles_mem_shape ig "" entries p sz hmem
  obtain ⟨h1, h2, h3⟩ := shouldAlwaysSkip_file_eq_false name hname
  exact ⟨dirs, name, hp, h1, h2, h3,
    fun d hd => shouldAlwaysSkip_dir_eq_false d (hdirs d hd), hig, hsz⟩

/-- C8 witness: in a tree with `app/main.ts` (10 bytes), `.env` (5
bytes), `app/.DS_Store`, a `node_modules` directory and an exactly-1MiB
file, with no gitignore rules, the file `app/main.ts` is collected and
satisfies every C8 condition. -/
theorem collectFiles_skips_secrets_and_oversized_witness :
    (("app/main.ts", 10) ∈ collectFiles (fun _ => false) ""
      [.dir "app" [.file "main.ts" 10 true, .file ".DS_Store" 1 true],
       .file ".env" 5 true,
       .dir "node_modules" [.file "x.js" 3 true],
       .file "big.bin" 1048576 true]) ∧
    (∃ dirs name,
      "app/main.ts" = List.foldl joinPath "" (dirs ++ [name]) ∧
      name ≠ ".env" ∧ strStartsWith name ".env." = false ∧
      name ≠ ".DS_Store" ∧ (∀ d ∈ dirs, d ≠ "node_modules") ∧
      (fun _ => false : String → Bool) "app/main.ts" = false ∧
      10 < 1048576) :=
  ⟨by simp [collectFiles, shouldAlwaysSkip, joinPath, strStartsWith],
    collectFiles_skips_secrets_and_oversized (fun _ => false)
      [.dir "app" [.file "main.ts" 10 true, .file ".DS_Store" 1 true],
       .file ".env" 5 true,
       .dir "node_modules" [.file "x.js" 3 true],
       .file "big.bin" 1048576 true] "app/main.ts" 10
      (by simp [collectFiles, shouldAlwaysSkip, joinPath, strStartsWith])⟩

/-- Result of `getTaskPrompt` from the task-prompt module: either a
resolved prompt with its source label, or the `needsInterview` flag
requesting interactive Plan Mode. -/
inductive TaskPrompt where
  | prompt (text : String) (sourceName : String)
  | needsInterview
deriving Repr, DecidableEq

/-- `getTaskPrompt(promptArg, localDir)` from the task-prompt module
(lines 613–650): a CLI argument ending in `.md` is resolved
(`path.resolve` after `~` expansion, modelled by `resolve`) and read
(`fs.readFile`, modelled by `readLocal`, `none` when the read throws);
on read failure the argument itself is the literal prompt with source
`'CLI argument'`.  A non-`.md` argument is a literal prompt.  With no
argument, a non-empty `PROMPT.md` in the local directory is used;
otherwise `needsInterview` is returned. -/
def getTaskPrompt (readLocal : String → Option String)
    (resolve : String → String) (promptArg : Option String)
    (localDir : String) : TaskPrompt :=
  match promptArg with
  | some arg =>
    if strEndsWith arg ".md" then
      match readLocal (resolve arg) with
      | some content => .prompt content.trim (resolve arg)
      | none => .prompt arg "CLI argument"
    else .prompt arg "CLI argument"
  | none =>
    match readLocal (joinPath localDir "PROMPT.md") with
    | some content =>
      if content ≠ "" then .prompt content.trim "PROMPT.md"
      else .needsInterview
    | none => .needsInterview

/-- C10: `getTaskPrompt` resolves the prompt by a fixed fallback order
with no error escape: for a `promptArg` ending in `.md` whose file
cannot be read, it returns the argument string itself as a literal
prompt with source `'CLI argument'` (the read error never propagates);
with no `promptArg`, when `PROMPT.md` exists but is empty it returns
`needsInterview` rather than an empty prompt. -/
theorem getTaskPrompt_fallback_no_error (readLocal : String → Option String)
    (resolve : String → String) (arg localDir : String) :
    (strEndsWith arg ".md" = true → readLocal (resolve arg) = none →
      getTaskPrompt readLocal resolve (some arg) localDir =
        .prompt arg "CLI argument") ∧
    (readLocal (joinPath localDir "PROMPT.md") = some "" →
      getTaskPrompt readLocal resolve none localDir = .needsInterview) := by
  constructor
  · intro hmd hread
    rw [getTaskPrompt, if_pos hmd, hread]
  · intro hread
    rw [getTaskPrompt, hread]
    simp

/-- Path resolution stub for the C10 witness: the identity. -/
def wResolve : String → String := fun s => s

/-- Local read stub for the C10 witness: `PROMPT.md` exists and is
empty; every other read throws. -/
def wRead : String → Option String :=
  fun p => if p = "PROMPT.md" then some "" else none

/-- C10 witness: the argument `notes.md` ends in `.md` and its read
throws, so it comes back as a literal prompt with source
`'CLI argument'`; with no argument, the empty `PROMPT.md` yields
`needsInterview`. -/
theorem getTaskPrompt_fallback_no_error_witness :
    (strEndsWith "notes.md" ".md" = true) ∧
    (wRead (wResolve "notes.md") = none) ∧
    (wRead (joinPath "" "PROMPT.md") = some "") ∧
    (getTaskPrompt wRead wResolve (some "notes.md") "" =
      .prompt "notes.md" "CLI argument") ∧
    (getTaskPrompt wRead wResolve none "" = .needsInterview) :=
  ⟨by decide, by decide, by decide,
    (getTaskPrompt_fallback_no_error wRead wResolve "notes.md" "").1
      (by decide) (by decide),
    (getTaskPrompt_fallback_no_error wRead wResolve "notes.md" "").2
      (by decide)⟩

end Cli
